import Mathlib

/-!
Verification of the SpeakV relay server and client against its
natural-language specification.

The definitions below are a shallow embedding of the Rust sources:
`src/app.rs` (client-side file reassembly and file chunking),
`src/server.rs` (the authoritative UDP relay server) and
`src/network.rs` (the client session loop).  Machine integers are
modelled as `Nat`, byte payloads as `List Nat`, socket addresses and
UUIDs as `Nat`, timestamps as `String` (the code compares timestamp
strings lexicographically), and the SQLite tables as in-memory lists in
insertion (= autoincrement id) order.

Two notes on fidelity:
* `network.rs` in this tree carries an older, smaller `NetworkPacket`
  enum than the variants `server.rs` and `app.rs` pattern-match on; the
  packet type below has the variants and fields exactly as the handlers
  use them.
* The `CREATE TABLE users` statement omits the `status` column that the
  `Login`/`UpdateProfile` queries read and write (likewise
  `file_messages` lacks the `username` column the file INSERT and
  history SELECTs use).  The tables are modelled with the columns the
  queries themselves name, i.e. the logical rows the handler code
  manipulates.
-/

set_option autoImplicit false

namespace SpeakV

abbrev Byte := Nat
abbrev Addr := Nat
abbrev Uuid := Nat

/-! ## File chunking (sender side, `app.rs` file send button) -/

/-- `let chunk_size = 32 * 1024;` in `app.rs`. -/
def chunkSize : Nat := 32 * 1024

/-- Rust `data.chunks(chunk_size)`: split into consecutive chunks of at
most `chunkSize` bytes.  The fuel argument (instantiated with
`data.length`, which suffices since `chunkSize ≥ 1`) keeps the
recursion structural. -/
def chunksOfFuel : Nat → List Byte → List (List Byte)
  | _, [] => []
  | 0, l => [l]
  | fuel + 1, x :: xs =>
    (x :: xs).take chunkSize :: chunksOfFuel fuel ((x :: xs).drop chunkSize)

/-- The chunk payload sequence produced for a file of bytes `data`
(`for (idx, chunk) in data.chunks(chunk_size).enumerate()`). -/
def fileChunks (data : List Byte) : List (List Byte) :=
  chunksOfFuel data.length data

/-- `let total_chunks = (data.len() + chunk_size - 1) / chunk_size;` -/
def fileTotalChunks (data : List Byte) : Nat :=
  (data.length + chunkSize - 1) / chunkSize

/-! ## Pending file reassembly (`PendingFile` in `app.rs`, also used by
`server.rs` for its own reassembler map) -/

structure PendingFile where
  filename : String
  sender : String
  toUser : Option String
  is_image : Bool
  timestamp : String
  chunks : List (Option (List Byte))
  total_chunks : Nat
  received_count : Nat
deriving DecidableEq, Repr

/-- The `FileStart` handler's fresh entry:
`chunks: vec![None; total_chunks], received_count: 0`. -/
def initialPending (filename sender : String) (toUser : Option String)
    (is_image : Bool) (timestamp : String) (total : Nat) : PendingFile :=
  ⟨filename, sender, toUser, is_image, timestamp, List.replicate total none, total, 0⟩

/-- One `FileChunk` applied to a pending transfer, exactly as both the
client handler (`app.rs`) and the server reassembler (`server.rs`) do:
the slot is filled only if `chunk_index < total_chunks` and the slot is
still empty; on the count reaching `total_chunks` the slots are drained
in index order into the returned completed payload (the caller then
drops the entry). -/
def processChunk (p : PendingFile) (chunk_index : Nat) (data : List Byte) :
    PendingFile × Option (List Byte) :=
  if chunk_index < p.total_chunks ∧ p.chunks.getD chunk_index none = none then
    let chunks' := p.chunks.set chunk_index (some data)
    let rc := p.received_count + 1
    if rc = p.total_chunks then
      ({ p with chunks := [], received_count := rc },
        some (chunks'.filterMap id).flatten)
    else
      ({ p with chunks := chunks', received_count := rc }, none)
  else (p, none)

/-- Deliver a sequence of `FileChunk` packets `(chunk_index, data)` to
one pending transfer.  After completion the entry is removed from the
reassembler map, so later chunks of the same transfer are ignored;
correspondingly the fold stops at the first completion. -/
def processChunks : PendingFile → List (Nat × List Byte) → PendingFile × Option (List Byte)
  | p, [] => (p, none)
  | p, (i, d) :: rest =>
    match processChunk p i d with
    | (p', some file) => (p', some file)
    | (p', none) => processChunks p' rest

/-! ### Helper lemmas about list slots -/

theorem getD_set_self {α : Type _} :
    ∀ (l : List α) (i : Nat) (v d : α), i < l.length → (l.set i v).getD i d = v
  | _ :: _, 0, _, _, _ => rfl
  | _ :: xs, i + 1, v, d, h =>
    getD_set_self xs i v d (Nat.lt_of_succ_lt_succ h)

theorem getD_set_ne {α : Type _} :
    ∀ (l : List α) (i j : Nat) (v d : α), i ≠ j → (l.set i v).getD j d = l.getD j d
  | [], _, _, _, _, _ => rfl
  | _ :: _, 0, 0, _, _, h => absurd rfl h
  | _ :: _, 0, _ + 1, _, _, _ => rfl
  | _ :: _, _ + 1, 0, _, _, _ => rfl
  | _ :: xs, i + 1, j + 1, v, d, h =>
    getD_set_ne xs i j v d (fun e => h (congrArg Nat.succ e))

theorem getD_map_some {α : Type _} :
    ∀ (l : List α) (j : Nat) (d₀ : α), j < l.length →
      (l.map some).getD j none = some (l.getD j d₀)
  | _ :: _, 0, _, _ => rfl
  | _ :: xs, j + 1, d₀, h => getD_map_some xs j d₀ (Nat.lt_of_succ_lt_succ h)

theorem getD_replicate_of_lt {α : Type _} :
    ∀ (n j : Nat) (a d : α), j < n → (List.replicate n a).getD j d = a
  | _ + 1, 0, _, _, _ => rfl
  | n + 1, j + 1, a, d, h => getD_replicate_of_lt n j a d (Nat.lt_of_succ_lt_succ h)

theorem list_ext_getD {α : Type _} (d : α) :
    ∀ (l₁ l₂ : List α), l₁.length = l₂.length →
      (∀ j, j < l₁.length → l₁.getD j d = l₂.getD j d) → l₁ = l₂
  | [], [], _, _ => rfl
  | [], _ :: _, h, _ => by simp at h
  | _ :: _, [], h, _ => by simp at h
  | a :: xs, b :: ys, h, hj => by
    have h0 : a = b := hj 0 (Nat.succ_pos _)
    have ht : xs = ys :=
      list_ext_getD d xs ys (Nat.succ_injective h)
        (fun j hlt => hj (j + 1) (Nat.succ_lt_succ hlt))
    rw [h0, ht]

theorem filterMap_id_map_some {α : Type _} :
    ∀ (l : List α), (l.map some).filterMap id = l
  | [] => rfl
  | _ :: xs => by simp [filterMap_id_map_some xs]

/-! ### Chunking facts -/

theorem chunkSize_pos : 0 < chunkSize := by decide

theorem chunksOfFuel_join :
    ∀ (fuel : Nat) (l : List Byte), l.length ≤ fuel →
      (chunksOfFuel fuel l).flatten = l := by
  intro fuel
  induction fuel with
  | zero =>
    intro l hl
    have : l = [] := List.length_eq_zero.mp (Nat.le_zero.mp hl)
    subst this; rfl
  | succ n ih =>
    intro l hl
    match l with
    | [] => rfl
    | x :: xs =>
      have hdrop : ((x :: xs).drop chunkSize).length ≤ n := by
        have := chunkSize_pos
        simp only [List.length_drop, List.length_cons] at *
        omega
      simp only [chunksOfFuel, List.flatten_cons, ih _ hdrop, List.take_append_drop]

theorem chunksOfFuel_length :
    ∀ (fuel : Nat) (l : List Byte), l.length ≤ fuel →
      (chunksOfFuel fuel l).length = (l.length + chunkSize - 1) / chunkSize := by
  intro fuel
  induction fuel with
  | zero =>
    intro l hl
    have : l = [] := List.length_eq_zero.mp (Nat.le_zero.mp hl)
    subst this
    simp only [chunksOfFuel, List.length_nil, List.length_cons, Nat.zero_add]
    exact (Nat.div_eq_of_lt (by have := chunkSize_pos; omega)).symm
  | succ n ih =>
    intro l hl
    match l with
    | [] =>
      simp only [chunksOfFuel, List.length_nil, Nat.zero_add]
      exact (Nat.div_eq_of_lt (by have := chunkSize_pos; omega)).symm
    | x :: xs =>
      have hk := chunkSize_pos
      have hdrop : ((x :: xs).drop chunkSize).length ≤ n := by
        simp only [List.length_drop, List.length_cons] at *
        omega
      have hlen : (x :: xs).length = xs.length + 1 := rfl
      simp only [chunksOfFuel, List.length_cons, ih _ hdrop, List.length_drop]
      have h1 : xs.length + 1 + chunkSize - 1 = xs.length + chunkSize := by omega
      rw [h1, Nat.add_div_right _ hk]
      by_cases hle : xs.length + 1 ≤ chunkSize
      · have h2 : xs.length + 1 - chunkSize = 0 := by omega
        rw [h2]
        have h3 : (chunkSize - 1) / chunkSize = 0 :=
          Nat.div_eq_of_lt (by omega)
        have h4 : xs.length / chunkSize = 0 := Nat.div_eq_of_lt (by omega)
        simp [h3, h4]
      · have h2 : xs.length + 1 - chunkSize + chunkSize - 1 =
            (xs.length - chunkSize) + chunkSize := by omega
        rw [h2, Nat.add_div_right _ hk]
        have h3 : xs.length = (xs.length - chunkSize) + chunkSize := by omega
        conv_rhs => rw [h3]
        rw [Nat.add_div_right _ hk]

theorem fileChunks_join (data : List Byte) : (fileChunks data).flatten = data :=
  chunksOfFuel_join _ _ le_rfl

theorem fileChunks_length (data : List Byte) :
    (fileChunks data).length = fileTotalChunks data :=
  chunksOfFuel_length _ _ le_rfl

theorem fileChunks_ne_nil {data : List Byte} (h : data ≠ []) :
    fileChunks data ≠ [] := by
  match data with
  | [] => exact absurd rfl h
  | x :: xs => simp [fileChunks, chunksOfFuel]

/-! ### Reassembly completes with the original payload, in any order -/

theorem processChunks_complete
    (chunks : List (List Byte)) (fn sd : String) (toUser : Option String)
    (img : Bool) (ts : String) :
    ∀ (rem : List (Nat × List Byte)) (cs : List (Option (List Byte))) (rc : Nat),
      rem ≠ [] →
      cs.length = chunks.length →
      rc + rem.length = chunks.length →
      (∀ i d, (i, d) ∈ rem → i < chunks.length ∧ d = chunks.getD i []) →
      (rem.map Prod.fst).Nodup →
      (∀ j, j < chunks.length → cs.getD j none =
        if j ∈ rem.map Prod.fst then none else some (chunks.getD j [])) →
      (processChunks ⟨fn, sd, toUser, img, ts, cs, chunks.length, rc⟩ rem).2 =
        some chunks.flatten := by
  intro rem
  induction rem with
  | nil => intro _ _ hne _ _ _ _ _; exact absurd rfl hne
  | cons hd tl ih =>
    intro cs rc _ hcs hrc hmem hnodup hfill
    obtain ⟨i, d⟩ := hd
    have hi : i < chunks.length ∧ d = chunks.getD i [] :=
      hmem i d (List.mem_cons_self _ _)
    have hslot : cs.getD i none = none := by
      have := hfill i hi.1
      simp only [List.map_cons, List.mem_cons, true_or, if_pos] at this
      simpa using this
    have hcond : i < chunks.length ∧ cs.getD i none = none := ⟨hi.1, hslot⟩
    match tl with
    | [] =>
      -- this is the final chunk: completion fires
      have hfinal : rc + 1 = chunks.length := by
        simpa using hrc
      have hset : cs.set i (some d) = chunks.map some := by
        apply list_ext_getD none
        · simp [hcs]
        · intro j hj
          have hjlen : j < chunks.length := by
            simpa [hcs] using hj
          by_cases hji : i = j
          · subst hji
            rw [getD_set_self _ _ _ _ (by rw [hcs]; exact hi.1),
              getD_map_some _ _ [] hi.1, hi.2]
          · rw [getD_set_ne _ _ _ _ _ hji, getD_map_some _ _ [] hjlen]
            have := hfill j hjlen
            have hnm : j ∉ ([(i, d)].map Prod.fst) := by
              simp only [List.map_cons, List.map_nil, List.mem_cons,
                List.not_mem_nil, or_false]
              exact fun e => hji e.symm
            rw [if_neg hnm] at this
            exact this
      show (processChunks _ [(i, d)]).2 = _
      simp only [processChunks, processChunk, hcond, and_self, if_pos, hfinal,
        if_true]
      simp only [hset, filterMap_id_map_some]
    | t :: ts' =>
      have hlt : rc + 1 ≠ chunks.length := by
        simp only [List.length_cons] at hrc
        omega
      have hpc : processChunk ⟨fn, sd, toUser, img, ts, cs, chunks.length, rc⟩ i d =
          (⟨fn, sd, toUser, img, ts, cs.set i (some d), chunks.length, rc + 1⟩, none) := by
        simp only [processChunk, hcond, and_self, if_pos, hlt, if_false]
      show (processChunks _ ((i, d) :: t :: ts')).2 = _
      rw [processChunks, hpc]
      apply ih
      · simp
      · simp [hcs]
      · simp only [List.length_cons] at hrc ⊢; omega
      · intro i' d' hmem'
        exact hmem i' d' (List.mem_cons_of_mem _ hmem')
      · exact (List.nodup_cons.mp (by simpa using hnodup)).2
      · intro j hj
        have hini : i ∉ ((t :: ts').map Prod.fst) :=
          (List.nodup_cons.mp (by simpa using hnodup)).1
        by_cases hji : i = j
        · subst hji
          rw [getD_set_self _ _ _ _ (by rw [hcs]; exact hi.1), if_neg hini, hi.2]
        · rw [getD_set_ne _ _ _ _ _ hji]
          have := hfill j hj
          by_cases hjm : j ∈ ((t :: ts').map Prod.fst)
          · have hjm' : j ∈ ((i, d) :: t :: ts').map Prod.fst := by
              simp only [List.map_cons, List.mem_cons]
              right
              simpa using hjm
            rw [if_pos hjm'] at this
            rw [if_pos hjm]
            exact this
          · have hjm' : j ∉ ((i, d) :: t :: ts').map Prod.fst := by
              simp only [List.map_cons, List.mem_cons, not_or]
              exact ⟨fun e => hji e.symm, by simpa using hjm⟩
            rw [if_neg hjm'] at this
            rw [if_neg hjm]
            exact this

/-- C1: for every file transfer (a payload chunked by the sender into
`fileTotalChunks data` chunks) and every delivery order of those chunks
in which each index is delivered exactly once, the receiver's
reassembled byte sequence equals the original payload.  (An empty
payload yields zero chunks; the completion event the claim speaks of is
then never triggered, so the payload is assumed nonempty.) -/
theorem file_reassembly_any_order (data : List Byte) (fn sd : String)
    (toUser : Option String) (img : Bool) (ts : String)
    (order : List (Nat × List Byte))
    (hperm : order.Perm (fileChunks data).enum) (hne : data ≠ []) :
    (processChunks (initialPending fn sd toUser img ts (fileTotalChunks data)) order).2 =
      some data := by
  have hlen := fileChunks_length data
  have hmain : (processChunks
      ⟨fn, sd, toUser, img, ts, List.replicate (fileChunks data).length none,
        (fileChunks data).length, 0⟩ order).2 = some (fileChunks data).flatten := by
    apply processChunks_complete
    · -- order ≠ []
      intro h0
      have := hperm.length_eq
      rw [h0] at this
      simp only [List.length_nil, List.enum_length] at this
      exact fileChunks_ne_nil hne (List.length_eq_zero.mp this.symm)
    · simp
    · have := hperm.length_eq
      simp only [List.enum_length] at this
      simpa using this
    · intro i d hmem
      have hm : (i, d) ∈ (fileChunks data).enum := hperm.mem_iff.mp hmem
      have := List.mem_enum_iff_getElem?.mp hm
      have hlt : i < (fileChunks data).length := by
        by_contra hge
        rw [List.getElem?_eq_none (Nat.le_of_not_lt hge)] at this
        exact Option.noConfusion this
      refine ⟨hlt, ?_⟩
      rw [List.getElem?_eq_getElem hlt] at this
      have := Option.some.inj this
      rw [List.getD_eq_getElem _ _ hlt, this]
    · have : (order.map Prod.fst).Perm ((fileChunks data).enum.map Prod.fst) :=
        hperm.map _
      rw [List.enum_eq_enumFrom, List.enumFrom_map_fst] at this
      exact this.nodup_iff.mpr (List.nodup_range' _ _)
    · intro j hj
      have hmemj : j ∈ order.map Prod.fst := by
        have : (order.map Prod.fst).Perm ((fileChunks data).enum.map Prod.fst) :=
          hperm.map _
        rw [List.enum_eq_enumFrom, List.enumFrom_map_fst] at this
        apply this.mem_iff.mpr
        simpa [List.mem_range'] using hj
      rw [if_pos hmemj]
      exact getD_replicate_of_lt _ _ _ _ hj
  rw [initialPending, ← hlen, hmain, fileChunks_join]

/-- Closed witness for `file_reassembly_any_order` at a one-chunk file. -/
theorem file_reassembly_any_order_witness :
    ([(0, [1, 2, 3])] : List (Nat × List Byte)).Perm (fileChunks [1, 2, 3]).enum ∧
    ([1, 2, 3] : List Byte) ≠ [] ∧
    (processChunks (initialPending "f" "alice" none false "12:00"
      (fileTotalChunks [1, 2, 3])) [(0, [1, 2, 3])]).2 = some [1, 2, 3] := by
  refine ⟨by decide, by simp, ?_⟩
  exact file_reassembly_any_order [1, 2, 3] "f" "alice" none false "12:00"
    [(0, [1, 2, 3])] (by decide) (by simp)

/-- C8: a `FileChunk` whose index already holds a payload leaves the
pending transfer entirely unchanged — the slot is not overwritten, the
received count is not incremented, and completion is not triggered. -/
theorem duplicate_chunk_ignored (p : PendingFile) (i : Nat)
    (d₀ d : List Byte) (h : p.chunks.getD i none = some d₀) :
    processChunk p i d = (p, none) := by
  have hc : ¬(i < p.total_chunks ∧ p.chunks.getD i none = none) := by
    rintro ⟨-, h2⟩
    rw [h] at h2
    exact Option.noConfusion h2
  unfold processChunk
  rw [if_neg hc]

/-- Closed witness for `duplicate_chunk_ignored`. -/
theorem duplicate_chunk_ignored_witness :
    (PendingFile.mk "f" "alice" none false "12:00" [some [5], none] 2 1).chunks.getD
        0 none = some [5] ∧
    processChunk (PendingFile.mk "f" "alice" none false "12:00" [some [5], none] 2 1)
        0 [9] =
      (PendingFile.mk "f" "alice" none false "12:00" [some [5], none] 2 1, none) :=
  ⟨rfl, duplicate_chunk_ignored _ 0 [5] [9] rfl⟩

/-! ## Wire packet model

Modelled from the variants and fields that the `server.rs` and `app.rs`
handlers pattern-match on (`network.rs` in this tree carries an older,
smaller enum).  Rust field names `from`/`to` are Lean keywords and are
rendered `sender`/`toUser`. -/

structure UserInfo where
  username : String
  role : String
  is_muted : Bool
  status : String
  nick_color : String
deriving DecidableEq, Repr

inductive AdminActionType where
  | Kick
  | Ban
  | Mute
  | Unmute
deriving DecidableEq, Repr

inductive NetworkPacket where
  | Handshake (username : String)
  | Audio (username : String) (data : List Int)
  | ChatMessage (id : Uuid) (username : String) (message : List Byte)
      (timestamp : String)
  | UsersUpdate (state : List (String × List UserInfo))
  | JoinChannel (name : String)
  | CreateChannel (name : String)
  | TypingStatus (username : String) (is_typing : Bool)
  | Register (username : String) (password : String)
  | Login (username : String) (password : String)
  | AuthResponse (success : Bool) (message : String) (role : Option String)
      (status : Option String) (nick_color : Option String)
  | UpdateProfile (status : String) (nick_color : String)
  | AdminAction (target : String) (action : AdminActionType)
  | RequestChatHistory (channel : String)
  | ChatHistory (history : List NetworkPacket)
  | PrivateMessage (id : Uuid) (sender : String) (toUser : String)
      (message : List Byte) (timestamp : String)
  | RequestDirectHistory (target : String)
  | DirectHistory (history : List NetworkPacket)
  | FileStart (id : Uuid) (sender : String) (toUser : Option String)
      (filename : String) (total_chunks : Nat) (is_image : Bool) (timestamp : String)
  | FileChunk (id : Uuid) (chunk_index : Nat) (data : List Byte)
  | FileMessage (id : Uuid) (sender : String) (toUser : Option String)
      (filename : String) (data : List Byte) (is_image : Bool) (timestamp : String)
  | Reaction (msg_id : Uuid) (sender : String) (emoji : String)
  | RequestProfile (username : String)
  | ProfileUpdate (username : String) (avatar_url : String) (bio : String)
  | Ping
deriving Repr

/-! ## Client session loop: the audio send step
(`NetworkManager::start` in `network.rs`, step "2. Send Audio") -/

/-- `for sample in input_buf.iter_mut() { *sample = cons.try_pop().unwrap_or(0.0); }`:
pop `n` samples off the capture queue, substituting silence once it is
empty.  Returns the frame and the remaining queue. -/
def popMany : Nat → List Int → List Int × List Int
  | 0, q => ([], q)
  | n + 1, [] =>
    let r := popMany n []
    (0 :: r.1, r.2)
  | n + 1, x :: xs =>
    let r := popMany n xs
    (x :: r.1, r.2)

/-- One iteration of the audio-send step: when at least one full
480-sample frame is buffered, either pop exactly one frame and emit an
`Audio` packet tagged with the local username (`can_transmit`), or clear
the capture queue (`cons.clear()`) and emit nothing.  Returns the new
queue and the packets sent. -/
def audioSendStep (queue : List Int) (can_transmit : Bool) (username : String) :
    List Int × List NetworkPacket :=
  if 480 ≤ queue.length then
    if can_transmit then
      let r := popMany 480 queue
      (r.2, [NetworkPacket.Audio username r.1])
    else ([], [])
  else (queue, [])

theorem popMany_eq_take_drop :
    ∀ (n : Nat) (q : List Int), n ≤ q.length → popMany n q = (q.take n, q.drop n)
  | 0, q, _ => by simp [popMany]
  | n + 1, [], h => by simp at h
  | n + 1, x :: xs, h => by
    have ih := popMany_eq_take_drop n xs (Nat.succ_le_succ_iff.mp (by simpa using h))
    simp [popMany, ih]

/-- C9: in a loop iteration where the capture queue holds at least one
full 480-sample frame, a permitted transmission pops exactly one frame
off the queue and sends it as a single `Audio` packet tagged with the
local username, while a gated iteration sends nothing and discards the
buffered samples (so gated audio is never sent and cannot accumulate). -/
theorem audio_send_step_spec (queue : List Int) (username : String)
    (h : 480 ≤ queue.length) :
    audioSendStep queue true username =
      (queue.drop 480, [NetworkPacket.Audio username (queue.take 480)]) ∧
    audioSendStep queue false username = ([], []) := by
  constructor
  · simp only [audioSendStep, if_pos h, if_true,
      popMany_eq_take_drop 480 queue h]
  · simp only [audioSendStep, if_pos h, Bool.false_eq_true, if_false]

/-- Closed witness for `audio_send_step_spec` at a 481-sample queue. -/
theorem audio_send_step_spec_witness :
    480 ≤ (List.replicate 481 (7 : Int)).length ∧
    (audioSendStep (List.replicate 481 (7 : Int)) true "alice" =
      ((List.replicate 481 (7 : Int)).drop 480,
        [NetworkPacket.Audio "alice" ((List.replicate 481 (7 : Int)).take 480)]) ∧
    audioSendStep (List.replicate 481 (7 : Int)) false "alice" = ([], [])) :=
  ⟨by simp only [List.length_replicate]; decide,
    audio_send_step_spec (List.replicate 481 (7 : Int)) "alice"
      (by simp only [List.length_replicate]; decide)⟩

/-! ## Server state (`run_server` in `server.rs`)

The SQLite tables are lists in insertion (autoincrement id) order; the
`clients` HashMap and the reassembler map are association lists. -/

structure ClientInfo where
  username : String
  current_channel : String
  last_seen : Nat
  is_authenticated : Bool
  role : String
  is_muted : Bool
  status : String
  nick_color : String
deriving DecidableEq, Repr

/-- A `users` table row (with the `status` column the queries use). -/
structure UserRec where
  username : String
  password_hash : String
  role : String
  is_banned : Bool
  status : String
  nick_color : String
  avatar_url : String
  bio : String
deriving DecidableEq, Repr

structure ChatRec where
  msg_id : Uuid
  username : String
  channel : String
  message : List Byte
  timestamp : String
deriving DecidableEq, Repr

structure PrivRec where
  msg_id : Uuid
  sender : String
  recipient : String
  message : List Byte
  timestamp : String
deriving DecidableEq, Repr

/-- A `file_messages` row (with the `username` column the queries use). -/
structure FileRec where
  msg_id : Uuid
  username : String
  channel : String
  recipient : Option String
  filename : String
  data : List Byte
  is_image : Bool
  timestamp : String
deriving DecidableEq, Repr

structure ReactRec where
  msg_id : Uuid
  username : String
  emoji : String
deriving DecidableEq, Repr

structure ServerState where
  clients : List (Addr × ClientInfo)
  channels : List String
  users : List UserRec
  chat_messages : List ChatRec
  private_messages : List PrivRec
  file_messages : List FileRec
  reactions : List ReactRec
  reassemblers : List (Uuid × PendingFile)
deriving Repr

/-! ### Association-list operations (HashMap get/insert/get_mut/remove) -/

def alookup {ν : Type _} : List (Nat × ν) → Nat → Option ν
  | [], _ => none
  | (k, v) :: rest, a => if k = a then some v else alookup rest a

def aset {ν : Type _} : List (Nat × ν) → Nat → ν → List (Nat × ν)
  | [], a, v => [(a, v)]
  | (k, w) :: rest, a, v =>
    if k = a then (a, v) :: rest else (k, w) :: aset rest a v

/-- `get_mut` followed by a field update: modifies the entry if present. -/
def aupdate {ν : Type _} (l : List (Nat × ν)) (a : Nat) (f : ν → ν) :
    List (Nat × ν) :=
  l.map (fun p => if p.1 = a then (p.1, f p.2) else p)

def aremove {ν : Type _} (l : List (Nat × ν)) (a : Nat) : List (Nat × ν) :=
  l.filter (fun p => !(p.1 == a))

/-- bcrypt is an external collaborator: the hash is modelled as an
injective encoding of the password and `verify` as comparison against
it.  (None of the verified claims depends on the hash's internals.) -/
def bcryptHash (password : String) : String := password

def bcryptVerify (password stored_hash : String) : Bool := password == stored_hash

/-- Projection of a session into the `UserInfo` sent in membership
broadcasts (`UsersUpdate` construction, `server.rs`). -/
def projectUser (c : ClientInfo) : UserInfo :=
  ⟨c.username, c.role, c.is_muted, c.status, c.nick_color⟩

/-- The full membership snapshot: for every durable channel, the
authenticated sessions whose `current_channel` matches, projected. -/
def broadcastState (s : ServerState) : List (String × List UserInfo) :=
  s.channels.map (fun chan =>
    (chan,
      (s.clients.filter (fun p =>
        p.2.current_channel == chan && p.2.is_authenticated)).map
        (fun p => projectUser p.2)))

/-- Packets sent in response to one datagram: a list of
(destination address, packet) pairs. -/
abbrev Sends := List (Addr × NetworkPacket)

/-! ### History replay queries -/

/-- The timestamp key of the `RequestChatHistory` sort closure
(`ChatMessage`/`FileMessage`, anything else sorts as `""`). -/
def tsChat : NetworkPacket → String
  | .ChatMessage _ _ _ ts => ts
  | .FileMessage _ _ _ _ _ _ ts => ts
  | _ => ""

/-- The timestamp key of the `RequestDirectHistory` sort closure
(also covers `PrivateMessage`). -/
def tsDirect : NetworkPacket → String
  | .ChatMessage _ _ _ ts => ts
  | .PrivateMessage _ _ _ _ ts => ts
  | .FileMessage _ _ _ _ _ _ ts => ts
  | _ => ""

/-- The `RequestChatHistory` query: last 50 chat rows of the channel,
last 50 channel file rows (`recipient IS NULL`), all reactions whose
target id appears among the channel's chat or file rows, merged and
stable-sorted by timestamp (Rust `sort_by` is a stable merge sort).
`ORDER BY id DESC LIMIT 50` on an insertion-ordered list is
`reverse.take 50`. -/
def chatHistoryFor (s : ServerState) (channel : String) : List NetworkPacket :=
  let chats := ((s.chat_messages.filter (fun m => m.channel == channel)).reverse.take 50).map
    (fun m => NetworkPacket.ChatMessage m.msg_id m.username m.message m.timestamp)
  let files := ((s.file_messages.filter
      (fun f => f.channel == channel && f.recipient == none)).reverse.take 50).map
    (fun f => NetworkPacket.FileMessage f.msg_id f.username none f.filename
      f.data f.is_image f.timestamp)
  let reacts := (s.reactions.filter (fun r =>
      s.chat_messages.any (fun m => m.channel == channel && m.msg_id == r.msg_id) ||
      s.file_messages.any (fun f => f.channel == channel && f.msg_id == r.msg_id))).map
    (fun r => NetworkPacket.Reaction r.msg_id r.username r.emoji)
  (chats ++ files ++ reacts).mergeSort (fun a b => decide (tsChat a ≤ tsChat b))

/-- The `RequestDirectHistory` query for requester `me` and peer
`target`. -/
def directHistoryFor (s : ServerState) (me target : String) : List NetworkPacket :=
  let pmPair := fun (p : PrivRec) =>
    (p.sender == me && p.recipient == target) || (p.sender == target && p.recipient == me)
  let filePair := fun (f : FileRec) =>
    (f.username == me && f.recipient == some target) ||
    (f.username == target && f.recipient == some me)
  let pms := ((s.private_messages.filter pmPair).reverse.take 50).map
    (fun p => NetworkPacket.PrivateMessage p.msg_id p.sender p.recipient
      p.message p.timestamp)
  let files := ((s.file_messages.filter filePair).reverse.take 50).map
    (fun f => NetworkPacket.FileMessage f.msg_id f.username
      (some (f.recipient.getD "")) f.filename f.data f.is_image f.timestamp)
  let reacts := (s.reactions.filter (fun r =>
      s.private_messages.any (fun p => pmPair p && p.msg_id == r.msg_id) ||
      s.file_messages.any (fun f => filePair f && f.msg_id == r.msg_id))).map
    (fun r => NetworkPacket.Reaction r.msg_id r.username r.emoji)
  (pms ++ files ++ reacts).mergeSort (fun a b => decide (tsDirect a ≤ tsDirect b))

/-! ### Per-packet dispatch (the big `match &packet` in `run_server`)

Each handler returns the new state, the packets sent while handling, and
the `needs_broadcast` flag.  `now` is the value of
`tokio::time::Instant::now()` during this datagram's processing. -/

/-- The gating data read at the top of the `Audio`/`TypingStatus`/
`ChatMessage`/`FileStart`/`FileChunk` arms: the sender's channel,
authentication and mute flags, with the defaults used when no session
exists for the address. -/
def senderGate (s : ServerState) (addr : Addr) : String × Bool × Bool :=
  match alookup s.clients addr with
  | some info => (info.current_channel, info.is_authenticated, info.is_muted)
  | none => ("Lobby", false, false)

/-- The `Audio`/`TypingStatus` arm: refresh liveness, then relay the raw
packet to every other authenticated session in the sender's channel,
provided the sender is authenticated and not muted. -/
def relayGated (s : ServerState) (addr : Addr) (now : Nat) (pkt : NetworkPacket) :
    ServerState × Sends × Bool :=
  let g := senderGate s addr
  let clients₁ := aupdate s.clients addr (fun i => { i with last_seen := now })
  if g.2.1 && !g.2.2 then
    ({ s with clients := clients₁ },
      (clients₁.filter (fun p =>
        !(p.1 == addr) && p.2.current_channel == g.1 && p.2.is_authenticated)).map
        (fun p => (p.1, pkt)),
      false)
  else
    ({ s with clients := clients₁ }, [], false)

/-- The `is_admin` test of the `AdminAction` arm: only the acting
session's `role` field is consulted. -/
def isAdminCheck (clients : List (Addr × ClientInfo)) (addr : Addr) : Bool :=
  match alookup clients addr with
  | some info => info.role == "Admin"
  | none => false

def handlePacket (s : ServerState) (addr : Addr) (now : Nat) :
    NetworkPacket → ServerState × Sends × Bool
  | .Handshake username =>
    ({ s with clients := (aset s.clients addr
        ⟨username, "Lobby", now, false, "User", false, "", "#FFFFFF"⟩) },
      [], true)
  | .Register username password =>
    let hashed := bcryptHash password
    let role := if s.users.length = 0 then "Admin" else "User"
    if s.users.any (fun u => u.username == username) then
      (s, [(addr, .AuthResponse false "Registration failed: UNIQUE constraint failed"
        none none none)], false)
    else
      ({ s with users := s.users ++ [⟨username, hashed, role, false, "", "#FFFFFF", "", ""⟩] },
        [(addr, .AuthResponse true "Registration successful!" none none none)], false)
  | .Login username password =>
    match s.users.find? (fun u => u.username == username) with
    | none =>
      (s, [(addr, .AuthResponse false "User not found" none none none)], false)
    | some u =>
      if u.is_banned then
        (s, [(addr, .AuthResponse false "You are banned from this server"
          none none none)], false)
      else if bcryptVerify password u.password_hash then
        ({ s with clients := aupdate s.clients addr (fun i =>
            { i with username := username, is_authenticated := true, role := u.role,
                     status := u.status, nick_color := u.nick_color, last_seen := now }) },
          [(addr, .AuthResponse true "Login successful!"
            (some u.role) (some u.status) (some u.nick_color))],
          (alookup s.clients addr).isSome)
      else
        (s, [(addr, .AuthResponse false "Invalid password" none none none)], false)
  | .UpdateProfile status nick_color =>
    match alookup s.clients addr with
    | some info =>
      if info.is_authenticated then
        ({ s with
            clients := aupdate s.clients addr (fun i =>
              { i with status := status, nick_color := nick_color }),
            users := s.users.map (fun u =>
              if u.username == info.username then
                { u with status := status, nick_color := nick_color }
              else u) },
          [], true)
      else (s, [], false)
    | none => (s, [], false)
  | .Audio username data => relayGated s addr now (.Audio username data)
  | .TypingStatus username is_typing =>
    relayGated s addr now (.TypingStatus username is_typing)
  | .ChatMessage id username message timestamp =>
    let g := senderGate s addr
    let clients₁ := aupdate s.clients addr (fun i => { i with last_seen := now })
    if g.2.1 && !g.2.2 then
      ({ s with clients := clients₁,
                chat_messages := s.chat_messages ++ [⟨id, username, g.1, message, timestamp⟩] },
        (clients₁.filter (fun p =>
          !(p.1 == addr) && p.2.current_channel == g.1 && p.2.is_authenticated)).map
          (fun p => (p.1, .ChatMessage id username message timestamp)),
        false)
    else
      ({ s with clients := clients₁ }, [], false)
  | .AdminAction target action =>
    if isAdminCheck s.clients addr then
      match action with
      | .Kick =>
        ({ s with clients := s.clients.filter (fun p => !(p.2.username == target)) },
          [], true)
      | .Ban =>
        ({ s with
            users := s.users.map (fun u =>
              if u.username == target then { u with is_banned := true } else u),
            clients := s.clients.filter (fun p => !(p.2.username == target)) },
          [], true)
      | .Mute =>
        ({ s with clients := s.clients.map (fun p =>
            if p.2.username == target then (p.1, { p.2 with is_muted := true }) else p) },
          [], true)
      | .Unmute =>
        ({ s with clients := s.clients.map (fun p =>
            if p.2.username == target then (p.1, { p.2 with is_muted := false }) else p) },
          [], true)
    else (s, [], false)
  | .RequestChatHistory channel =>
    match alookup s.clients addr with
    | some info =>
      if info.is_authenticated then
        (s, [(addr, .ChatHistory (chatHistoryFor s channel))], false)
      else (s, [], false)
    | none => (s, [], false)
  | .CreateChannel name =>
    match alookup s.clients addr with
    | some info =>
      if info.is_authenticated && !(s.channels.contains name) then
        ({ s with channels := s.channels ++ [name] }, [], true)
      else (s, [], false)
    | none => (s, [], false)
  | .JoinChannel name =>
    match alookup s.clients addr with
    | some info =>
      if info.is_authenticated && s.channels.contains name then
        ({ s with clients := aupdate s.clients addr (fun i =>
            { i with current_channel := name, last_seen := now }) },
          [], true)
      else (s, [], false)
    | none => (s, [], false)
  | .PrivateMessage id sender toUser message timestamp =>
    match alookup s.clients addr with
    | some info =>
      if info.is_authenticated && info.username == sender then
        ({ s with private_messages :=
            s.private_messages ++ [⟨id, sender, toUser, message, timestamp⟩] },
          match s.clients.find? (fun p => p.2.username == toUser) with
          | some p => [(p.1, .PrivateMessage id sender toUser message timestamp)]
          | none => [],
          false)
      else (s, [], false)
    | none => (s, [], false)
  | .RequestDirectHistory target =>
    match alookup s.clients addr with
    | some info =>
      if info.is_authenticated then
        (s, [(addr, .DirectHistory (directHistoryFor s info.username target))], false)
      else (s, [], false)
    | none => (s, [], false)
  | .FileStart id sender toUser filename total_chunks is_image timestamp =>
    let g := senderGate s addr
    if g.2.1 then
      ({ s with reassemblers := (aset s.reassemblers id
          ⟨filename, sender, toUser, is_image, timestamp,
            List.replicate total_chunks none, total_chunks, 0⟩) },
        (match toUser with
        | some target =>
          match s.clients.find? (fun p => p.2.username == target) with
          | some p => [(p.1, .FileStart id sender toUser filename total_chunks
              is_image timestamp)]
          | none => []
        | none =>
          (s.clients.filter (fun p =>
            !(p.1 == addr) && p.2.current_channel == g.1 && p.2.is_authenticated)).map
            (fun p => (p.1, .FileStart id sender toUser filename total_chunks
              is_image timestamp))),
        false)
    else (s, [], false)
  | .FileChunk id chunk_index data =>
    let g := senderGate s addr
    if g.2.1 then
      let sends := (s.clients.filter (fun p =>
          !(p.1 == addr) && p.2.is_authenticated)).map
        (fun p => (p.1, NetworkPacket.FileChunk id chunk_index data))
      match alookup s.reassemblers id with
      | some pending =>
        match processChunk pending chunk_index data with
        | (_, some full_data) =>
          ({ s with
              file_messages := s.file_messages ++
                [⟨id, pending.sender, g.1, pending.toUser, pending.filename,
                  full_data, pending.is_image, pending.timestamp⟩],
              reassemblers := aremove s.reassemblers id },
            sends, false)
        | (pending', none) =>
          ({ s with reassemblers := aset s.reassemblers id pending' }, sends, false)
      | none => (s, sends, false)
    else (s, [], false)
  | .Reaction msg_id sender emoji =>
    match alookup s.clients addr with
    | some info =>
      if info.is_authenticated && info.username == sender then
        ({ s with reactions := s.reactions ++ [⟨msg_id, sender, emoji⟩] },
          s.clients.map (fun p => (p.1, NetworkPacket.Reaction msg_id sender emoji)),
          false)
      else (s, [], false)
    | none => (s, [], false)
  | .RequestProfile target_user =>
    let row := s.users.find? (fun u => u.username == target_user)
    (s, [(addr, .ProfileUpdate target_user
        ((row.map (fun u => u.avatar_url)).getD "")
        ((row.map (fun u => u.bio)).getD ""))], false)
  | .ProfileUpdate _ avatar_url bio =>
    match alookup s.clients addr with
    | some info =>
      if info.is_authenticated then
        ({ s with users := s.users.map (fun u =>
            if u.username == info.username then
              { u with avatar_url := avatar_url, bio := bio }
            else u) },
          s.clients.map (fun p =>
            (p.1, NetworkPacket.ProfileUpdate info.username avatar_url bio)),
          false)
      else (s, [], false)
    | none => (s, [], false)
  | .Ping =>
    ({ s with clients := aupdate s.clients addr (fun i => { i with last_seen := now }) },
      [], false)
  | _ => (s, [], false)

/-- One full datagram-processing step: dispatch, then the liveness purge
(`retain(|_, info| info.last_seen.elapsed().as_secs() < 30)`), then the
membership broadcast to every connected session when anything changed. -/
def stepServer (s : ServerState) (addr : Addr) (now : Nat) (pkt : NetworkPacket) :
    ServerState × Sends :=
  let r := handlePacket s addr now pkt
  let s₁ := r.1
  let clients₂ := s₁.clients.filter (fun p => now - p.2.last_seen < 30)
  let needs_broadcast := r.2.2 || !(clients₂.length == s₁.clients.length)
  let s₂ := { s₁ with clients := clients₂ }
  if needs_broadcast then
    (s₂, r.2.1 ++ clients₂.map (fun p => (p.1, NetworkPacket.UsersUpdate (broadcastState s₂))))
  else
    (s₂, r.2.1)

/-- The server's state at start-up: no sessions, no accounts (the claim
set quantifies over states reachable from the empty registry), and the
two default channels. -/
def initState : ServerState :=
  ⟨[], ["Lobby", "AFK"], [], [], [], [], [], []⟩

/-- Process a sequence of datagrams `(addr, now, packet)`. -/
def execServer (s : ServerState) : List (Addr × Nat × NetworkPacket) → ServerState
  | [] => s
  | (addr, now, pkt) :: rest => execServer (stepServer s addr now pkt).1 rest

/-- States reachable from start-up by some packet sequence. -/
def Reachable (s : ServerState) : Prop :=
  ∃ events : List (Addr × Nat × NetworkPacket), s = execServer initState events

/-! ### Small facts about the association-list operations -/

theorem alookup_mem {ν : Type _} :
    ∀ (l : List (Nat × ν)) (a : Nat) (v : ν), alookup l a = some v → (a, v) ∈ l
  | [], _, _, h => by simp [alookup] at h
  | (k, w) :: rest, a, v, h => by
    by_cases hk : k = a
    · subst hk
      rw [alookup, if_pos rfl] at h
      exact (Option.some.inj h) ▸ List.mem_cons_self _ _
    · rw [alookup, if_neg hk] at h
      exact List.mem_cons_of_mem _ (alookup_mem rest a v h)

theorem mem_aset {ν : Type _} :
    ∀ (l : List (Nat × ν)) (a : Nat) (v : ν) (q : Nat × ν),
      q ∈ aset l a v → q ∈ l ∨ q = (a, v)
  | [], a, v, q, h => by
    simp only [aset, List.mem_singleton] at h
    exact Or.inr h
  | (k, w) :: rest, a, v, q, h => by
    by_cases hk : k = a
    · rw [aset, if_pos hk] at h
      rcases List.mem_cons.mp h with h1 | h1
      · exact Or.inr h1
      · exact Or.inl (List.mem_cons_of_mem _ h1)
    · rw [aset, if_neg hk] at h
      rcases List.mem_cons.mp h with h1 | h1
      · exact Or.inl (h1 ▸ List.mem_cons_self _ _)
      · rcases mem_aset rest a v q h1 with h2 | h2
        · exact Or.inl (List.mem_cons_of_mem _ h2)
        · exact Or.inr h2

theorem mem_aupdate {ν : Type _} (l : List (Nat × ν)) (a : Nat) (f : ν → ν)
    (q : Nat × ν) (h : q ∈ aupdate l a f) :
    ∃ p, p ∈ l ∧ (q = p ∨ q = (p.1, f p.2)) := by
  rcases List.mem_map.mp h with ⟨p, hp, he⟩
  refine ⟨p, hp, ?_⟩
  by_cases hc : p.1 = a
  · rw [if_pos hc] at he
    exact Or.inr he.symm
  · rw [if_neg hc] at he
    exact Or.inl he.symm

/-- Both branches of the broadcast decision leave the same state: the
handler's state with the liveness purge applied to the session map. -/
theorem stepServer_fst (s : ServerState) (addr : Addr) (now : Nat)
    (pkt : NetworkPacket) :
    (stepServer s addr now pkt).1 =
      { (handlePacket s addr now pkt).1 with
        clients := (handlePacket s addr now pkt).1.clients.filter
          (fun p => now - p.2.last_seen < 30) } := by
  simp only [stepServer]
  split <;> rfl

/-! ## C5: first registration is Admin, later ones are User -/

/-- C5: a `Register` processed while the users table is empty stores the
new account with role `Admin`; a `Register` of a fresh username while at
least one account exists stores role `User`. -/
theorem register_first_admin (s : ServerState) (addr : Addr) (now : Nat)
    (username password : String) :
    (s.users = [] →
      (stepServer s addr now (.Register username password)).1.users =
        [⟨username, bcryptHash password, "Admin", false, "", "#FFFFFF", "", ""⟩]) ∧
    (s.users ≠ [] → (∀ u ∈ s.users, u.username ≠ username) →
      (stepServer s addr now (.Register username password)).1.users =
        s.users ++ [⟨username, bcryptHash password, "User", false, "", "#FFFFFF", "", ""⟩]) := by
  rw [stepServer_fst]
  constructor
  · intro h
    simp [handlePacket, h]
  · intro h hfresh
    have hany : s.users.any (fun u => u.username == username) = false := by
      rw [List.any_eq_false]
      intro u hu
      simpa using hfresh u hu
    have hlen : ¬(s.users.length = 0) := by
      intro h0
      exact h (List.length_eq_zero.mp h0)
    simp [handlePacket, hany, hlen]

/-- Closed witness for `register_first_admin`: the first account becomes
Admin, a second (fresh) account becomes User. -/
theorem register_first_admin_witness :
    ((stepServer initState 0 0 (.Register "alice" "pw1")).1.users =
      [⟨"alice", bcryptHash "pw1", "Admin", false, "", "#FFFFFF", "", ""⟩]) ∧
    ((stepServer { initState with
        users := [⟨"alice", "pw1", "Admin", false, "", "#FFFFFF", "", ""⟩] } 1 0
        (.Register "bob" "pw2")).1.users =
      [⟨"alice", "pw1", "Admin", false, "", "#FFFFFF", "", ""⟩] ++
        [⟨"bob", bcryptHash "pw2", "User", false, "", "#FFFFFF", "", ""⟩]) :=
  ⟨(register_first_admin initState 0 0 "alice" "pw1").1 rfl,
    (register_first_admin _ 1 0 "bob" "pw2").2 (by simp)
      (by intro u hu; simp only [List.mem_singleton] at hu; subst hu; decide)⟩

/-! ## C6: a banned account cannot log in -/

/-- C6: a `Login` naming an account whose ban flag is set is answered
with `success = false` (and the fixed ban message), and no session is
created or marked authenticated by the step: every session in the
post-state was already present, unchanged, in the pre-state.  This
holds for every supplied password, in particular one matching the
stored credential hash. -/
theorem banned_login_fails (s : ServerState) (addr : Addr) (now : Nat)
    (username password : String) (u : UserRec)
    (hfind : s.users.find? (fun r => r.username == username) = some u)
    (hban : u.is_banned = true) :
    (addr, NetworkPacket.AuthResponse false "You are banned from this server"
      none none none) ∈ (stepServer s addr now (.Login username password)).2 ∧
    ∀ p ∈ (stepServer s addr now (.Login username password)).1.clients,
      p ∈ s.clients := by
  have hr : handlePacket s addr now (.Login username password) =
      (s, [(addr, .AuthResponse false "You are banned from this server"
        none none none)], false) := by
    simp [handlePacket, hfind, hban]
  constructor
  · unfold stepServer
    rw [hr]
    dsimp only
    split
    · exact List.mem_append_left _ (List.mem_cons_self _ _)
    · exact List.mem_cons_self _ _
  · intro p hp
    rw [stepServer_fst, hr] at hp
    exact List.mem_of_mem_filter hp

/-- Closed witness for `banned_login_fails`: a banned account with a
matching password (the model's hash of `"pw"` is checked against the
stored `"pw"`). -/
theorem banned_login_fails_witness :
    (({ initState with
        users := [⟨"mallory", "pw", "User", true, "", "#FFFFFF", "", ""⟩],
        clients := [(0, ⟨"mallory", "Lobby", 0, false, "User", false, "", "#FFFFFF"⟩)] }
        : ServerState).users.find? (fun r => r.username == "mallory") =
      some ⟨"mallory", "pw", "User", true, "", "#FFFFFF", "", ""⟩) ∧
    ((0, NetworkPacket.AuthResponse false "You are banned from this server"
      none none none) ∈ (stepServer { initState with
        users := [⟨"mallory", "pw", "User", true, "", "#FFFFFF", "", ""⟩],
        clients := [(0, ⟨"mallory", "Lobby", 0, false, "User", false, "", "#FFFFFF"⟩)] }
        0 0 (.Login "mallory" "pw")).2 ∧
    ∀ p ∈ (stepServer { initState with
        users := [⟨"mallory", "pw", "User", true, "", "#FFFFFF", "", ""⟩],
        clients := [(0, ⟨"mallory", "Lobby", 0, false, "User", false, "", "#FFFFFF"⟩)] }
        0 0 (.Login "mallory" "pw")).1.clients,
      p ∈ ({ initState with
        users := [⟨"mallory", "pw", "User", true, "", "#FFFFFF", "", ""⟩],
        clients := [(0, ⟨"mallory", "Lobby", 0, false, "User", false, "", "#FFFFFF"⟩)] }
        : ServerState).clients) :=
  ⟨rfl, banned_login_fails _ 0 0 "mallory" "pw" _ rfl rfl⟩

/-! ## C7: a muted sender is relayed to nobody but stays visible -/

theorem relayGated_muted_sends_nothing (s : ServerState) (addr : Addr) (now : Nat)
    (pkt : NetworkPacket) (info : ClientInfo)
    (hs : alookup s.clients addr = some info) (hm : info.is_muted = true) :
    (relayGated s addr now pkt).2.1 = [] := by
  simp [relayGated, senderGate, hs, hm]

/-- If the handler itself sent nothing, everything the full step sends
is a `UsersUpdate` membership snapshot (possibly triggered by the
liveness purge), never a relay of the inbound packet. -/
theorem stepServer_sends_only_broadcasts (s : ServerState) (addr : Addr)
    (now : Nat) (pkt : NetworkPacket)
    (h : (handlePacket s addr now pkt).2.1 = []) :
    ∀ a q, (a, q) ∈ (stepServer s addr now pkt).2 →
      ∃ st, q = NetworkPacket.UsersUpdate st := by
  intro a q hq
  simp only [stepServer, h] at hq
  split at hq
  · rw [List.nil_append] at hq
    rcases List.mem_map.mp hq with ⟨p, -, hpe⟩
    exact ⟨_, (Prod.mk.injEq _ _ _ _ ▸ hpe).2.symm⟩
  · exact absurd hq (List.not_mem_nil _)

/-- C7: every `Audio`, `TypingStatus` or `ChatMessage` packet from a
muted session is relayed to zero sessions (the step emits nothing but
membership snapshots), yet while authenticated the muted session still
appears, mute flag set, in the membership broadcast entry of its
channel. -/
theorem muted_sender_relay_and_visibility (s : ServerState) (addr : Addr)
    (now : Nat) (info : ClientInfo)
    (hs : alookup s.clients addr = some info) (hmut : info.is_muted = true)
    (un : String) (dat : List Int) (ty : Bool) (id : Uuid)
    (msg : List Byte) (ts : String) :
    (∀ a q, (a, q) ∈ (stepServer s addr now (.Audio un dat)).2 →
      ∃ st, q = NetworkPacket.UsersUpdate st) ∧
    (∀ a q, (a, q) ∈ (stepServer s addr now (.TypingStatus un ty)).2 →
      ∃ st, q = NetworkPacket.UsersUpdate st) ∧
    (∀ a q, (a, q) ∈ (stepServer s addr now (.ChatMessage id un msg ts)).2 →
      ∃ st, q = NetworkPacket.UsersUpdate st) ∧
    (info.is_authenticated = true → info.current_channel ∈ s.channels →
      ∃ entry, (info.current_channel, entry) ∈ broadcastState s ∧
        projectUser info ∈ entry ∧ (projectUser info).is_muted = true) := by
  refine ⟨?_, ?_, ?_, ?_⟩
  · exact stepServer_sends_only_broadcasts s addr now _
      (relayGated_muted_sends_nothing s addr now _ info hs hmut)
  · exact stepServer_sends_only_broadcasts s addr now _
      (relayGated_muted_sends_nothing s addr now _ info hs hmut)
  · refine stepServer_sends_only_broadcasts s addr now _ ?_
    simp [handlePacket, senderGate, hs, hmut]
  · intro hauth hchan
    refine ⟨_, List.mem_map.mpr ⟨info.current_channel, hchan, rfl⟩, ?_, hmut⟩
    refine List.mem_map.mpr ⟨(addr, info), List.mem_filter.mpr
      ⟨alookup_mem _ _ _ hs, ?_⟩, rfl⟩
    simp [hauth]

/-- Closed witness for `muted_sender_relay_and_visibility`. -/
theorem muted_sender_relay_and_visibility_witness :
    (alookup ({ initState with
        clients := [(0, ⟨"m", "Lobby", 0, true, "User", true, "", "#FFFFFF"⟩)] }
        : ServerState).clients 0 =
      some ⟨"m", "Lobby", 0, true, "User", true, "", "#FFFFFF"⟩) ∧
    ((⟨"m", "Lobby", 0, true, "User", true, "", "#FFFFFF"⟩ : ClientInfo).is_muted
      = true) ∧
    ((⟨"m", "Lobby", 0, true, "User", true, "", "#FFFFFF"⟩ : ClientInfo).is_authenticated
        = true →
      "Lobby" ∈ ({ initState with
        clients := [(0, ⟨"m", "Lobby", 0, true, "User", true, "", "#FFFFFF"⟩)] }
        : ServerState).channels →
      ∃ entry, ("Lobby", entry) ∈ broadcastState { initState with
          clients := [(0, ⟨"m", "Lobby", 0, true, "User", true, "", "#FFFFFF"⟩)] } ∧
        projectUser ⟨"m", "Lobby", 0, true, "User", true, "", "#FFFFFF"⟩ ∈ entry ∧
        (projectUser ⟨"m", "Lobby", 0, true, "User", true, "", "#FFFFFF"⟩).is_muted
          = true) :=
  ⟨rfl, rfl,
    (muted_sender_relay_and_visibility { initState with
        clients := [(0, ⟨"m", "Lobby", 0, true, "User", true, "", "#FFFFFF"⟩)] }
      0 0 _ rfl rfl "m" [] true 0 [] "").2.2.2⟩

/-! ## C2: direct-file chunks are in fact relayed to every other
authenticated session, not only the named recipient -/

/-- A state with three authenticated users and a pending transfer that
was announced (`FileStart`) as a direct message to `"bob"`. -/
def dmChunkState : ServerState :=
  { initState with
    clients := [
      (1, ⟨"alice", "Lobby", 0, true, "User", false, "", "#FFFFFF"⟩),
      (2, ⟨"bob", "Lobby", 0, true, "User", false, "", "#FFFFFF"⟩),
      (3, ⟨"carol", "Lobby", 0, true, "User", false, "", "#FFFFFF"⟩)],
    reassemblers := [(5, ⟨"f.txt", "alice", some "bob", false, "10:00",
      [none, none], 2, 0⟩)] }

/-- C2 counterexample: the transfer id 5 was announced with recipient
`"bob"` (session 2), yet the server relays alice's chunk both to bob
and to carol (session 3), who is not the named recipient.  The claim
"relays to exactly the named recipient's session" is false on the code:
the `FileChunk` arm relays to every other authenticated session and
never consults the transfer's recipient. -/
theorem fileChunk_dm_counterexample :
    (alookup dmChunkState.reassemblers 5).map PendingFile.toUser =
      some (some "bob") ∧
    (alookup dmChunkState.clients 3).map ClientInfo.username = some "carol" ∧
    (stepServer dmChunkState 1 0 (.FileChunk 5 0 [9])).2 =
      [(2, NetworkPacket.FileChunk 5 0 [9]), (3, NetworkPacket.FileChunk 5 0 [9])] :=
  ⟨rfl, rfl, rfl⟩

/-- Helper: when the handler neither touched the session map nor asked
for a broadcast and no session is stale, the step's output is exactly
the handler's output. -/
theorem stepServer_no_purge (s : ServerState) (addr : Addr) (now : Nat)
    (pkt : NetworkPacket)
    (hcl : (handlePacket s addr now pkt).1.clients = s.clients)
    (hnb : (handlePacket s addr now pkt).2.2 = false)
    (hfresh : ∀ p ∈ s.clients, now - p.2.last_seen < 30) :
    (stepServer s addr now pkt).2 = (handlePacket s addr now pkt).2.1 ∧
    (stepServer s addr now pkt).1.clients = s.clients := by
  have hfil : s.clients.filter (fun p => decide (now - p.2.last_seen < 30)) =
      s.clients :=
    List.filter_eq_self.mpr (fun p hp => by simpa using hfresh p hp)
  simp [stepServer, hcl, hnb, hfil]

/-- C2 amended: a `FileChunk` from an authenticated sender is relayed
to every other authenticated session — regardless of the channel and of
the direct-message recipient announced in the transfer's `FileStart` —
and to none when the sender is unauthenticated.  (`hfresh` rules out a
simultaneous liveness purge so the step's output is the relay alone.) -/
theorem fileChunk_relay_all_authenticated (s : ServerState) (addr : Addr)
    (now : Nat) (id : Uuid) (idx : Nat) (d : List Byte) (info : ClientInfo)
    (hs : alookup s.clients addr = some info)
    (hfresh : ∀ p ∈ s.clients, now - p.2.last_seen < 30) :
    (info.is_authenticated = true →
      (stepServer s addr now (.FileChunk id idx d)).2 =
        (s.clients.filter (fun p => !(p.1 == addr) && p.2.is_authenticated)).map
          (fun p => (p.1, NetworkPacket.FileChunk id idx d))) ∧
    (info.is_authenticated = false →
      (stepServer s addr now (.FileChunk id idx d)).2 = []) := by
  have hg : senderGate s addr =
      (info.current_channel, info.is_authenticated, info.is_muted) := by
    simp [senderGate, hs]
  constructor
  · intro hauth
    have key : (handlePacket s addr now (.FileChunk id idx d)).1.clients =
          s.clients ∧
        (handlePacket s addr now (.FileChunk id idx d)).2.1 =
          (s.clients.filter (fun p => !(p.1 == addr) && p.2.is_authenticated)).map
            (fun p => (p.1, NetworkPacket.FileChunk id idx d)) ∧
        (handlePacket s addr now (.FileChunk id idx d)).2.2 = false := by
      simp only [handlePacket, hg, hauth, if_true]
      cases hra : alookup s.reassemblers id with
      | none => simp [hra]
      | some pending =>
        cases hpc : processChunk pending idx d with
        | mk p' res =>
          cases res <;> simp [hra, hpc]
    obtain ⟨h1, h2⟩ := stepServer_no_purge s addr now _ key.1 key.2.2 hfresh
    rw [h1, key.2.1]
  · intro hnauth
    have key : (handlePacket s addr now (.FileChunk id idx d)).1.clients =
          s.clients ∧
        (handlePacket s addr now (.FileChunk id idx d)).2.1 = [] ∧
        (handlePacket s addr now (.FileChunk id idx d)).2.2 = false := by
      simp [handlePacket, hg, hnauth]
    obtain ⟨h1, h2⟩ := stepServer_no_purge s addr now _ key.1 key.2.2 hfresh
    rw [h1, key.2.1]

/-- Closed witness for `fileChunk_relay_all_authenticated`, on the same
state as the counterexample. -/
theorem fileChunk_relay_all_authenticated_witness :
    (alookup dmChunkState.clients 1 =
      some ⟨"alice", "Lobby", 0, true, "User", false, "", "#FFFFFF"⟩) ∧
    ((⟨"alice", "Lobby", 0, true, "User", false, "", "#FFFFFF"⟩ : ClientInfo).is_authenticated
        = true →
      (stepServer dmChunkState 1 0 (.FileChunk 5 0 [9])).2 =
        (dmChunkState.clients.filter
          (fun p => !(p.1 == 1) && p.2.is_authenticated)).map
          (fun p => (p.1, NetworkPacket.FileChunk 5 0 [9]))) :=
  ⟨rfl,
    (fileChunk_relay_all_authenticated dmChunkState 1 0 5 0 [9] _ rfl
      (by intro p hp; fin_cases hp <;> decide)).1⟩

/-! ## C3: history replay is sorted, but the 50-window is per record
kind, not a bound on the whole reply -/

/-- A channel with exactly 50 chat rows and one channel file row. -/
def histWindowState : ServerState :=
  { initState with
    chat_messages := List.replicate 50 ⟨0, "u", "general", [], "10:00"⟩,
    file_messages := [⟨1, "u", "general", none, "f.txt", [], false, "10:01"⟩] }

/-- C3 counterexample: with 50 chat records and one file record in the
channel, the returned history holds 51 records — the `LIMIT 50` is
applied to the chat query and the file query separately (and reactions
are not limited at all), so the merged reply can exceed the configured
window size. -/
theorem chat_history_window_counterexample :
    50 < (chatHistoryFor histWindowState "general").length := by
  simp only [chatHistoryFor]
  rw [List.length_mergeSort]
  decide

theorem countP_map_const_true {α : Type _} (l : List α) (f : α → NetworkPacket)
    (p : NetworkPacket → Bool) (h : ∀ a, p (f a) = true) :
    (l.map f).countP p = l.length := by
  rw [List.countP_map]
  refine List.countP_eq_length.mpr ?_
  intro a _
  simpa [Function.comp] using h a

theorem countP_map_const_false {α : Type _} (l : List α) (f : α → NetworkPacket)
    (p : NetworkPacket → Bool) (h : ∀ a, p (f a) = false) :
    (l.map f).countP p = 0 := by
  rw [List.countP_map]
  refine List.countP_eq_zero.mpr ?_
  intro a _
  simp [Function.comp, h]

/-- The merged history is sorted by the timestamp key: `sort_by` is a
stable merge sort and the comparator is total and transitive. -/
theorem pairwise_mergeSort_ts (key : NetworkPacket → String)
    (l : List NetworkPacket) :
    List.Pairwise (fun a b => key a ≤ key b)
      (l.mergeSort (fun a b => decide (key a ≤ key b))) := by
  refine (List.sorted_mergeSort ?_ ?_ l).imp ?_
  · intro a b c hab hbc
    simp only [decide_eq_true_eq] at *
    exact le_trans hab hbc
  · intro a b
    simp only [Bool.or_eq_true, decide_eq_true_eq]
    exact le_total _ _
  · intro a b hx
    simpa using hx

/-- C3 amended: every channel-history reply is sorted in non-decreasing
timestamp order, and the window bound holds per record kind: at most 50
chat-message records and at most 50 file records (reactions are merged
in unbounded, and the total may therefore exceed 50). -/
theorem chat_history_sorted_and_bounded (s : ServerState) (channel : String) :
    List.Pairwise (fun a b => tsChat a ≤ tsChat b) (chatHistoryFor s channel) ∧
    (chatHistoryFor s channel).countP
      (fun p => match p with
        | NetworkPacket.ChatMessage _ _ _ _ => true
        | _ => false) ≤ 50 ∧
    (chatHistoryFor s channel).countP
      (fun p => match p with
        | NetworkPacket.FileMessage _ _ _ _ _ _ _ => true
        | _ => false) ≤ 50 := by
  refine ⟨pairwise_mergeSort_ts tsChat _, ?_, ?_⟩
  · simp only [chatHistoryFor]
    rw [(List.mergeSort_perm _ _).countP_eq, List.countP_append,
      List.countP_append,
      countP_map_const_true _ _ _ (fun _ => rfl),
      countP_map_const_false _ _ _ (fun _ => rfl),
      countP_map_const_false _ _ _ (fun _ => rfl)]
    have := List.length_take_le 50
      ((s.chat_messages.filter (fun m => m.channel == channel)).reverse)
    omega
  · simp only [chatHistoryFor]
    rw [(List.mergeSort_perm _ _).countP_eq, List.countP_append,
      List.countP_append,
      countP_map_const_false _ _ _ (fun _ => rfl),
      countP_map_const_true _ _ _ (fun _ => rfl),
      countP_map_const_false _ _ _ (fun _ => rfl)]
    have := List.length_take_le 50
      ((s.file_messages.filter
        (fun f => f.channel == channel && f.recipient == none)).reverse)
    omega

/-! ## Reachability invariants for C4 and C10 -/

/-- What must hold of one session against the users table: a session
stamped `Admin` is authenticated (roles are only ever assigned during a
successful `Login`), and an authenticated session's account is not
banned (`Login` rejects banned accounts and `Ban` removes the target's
sessions on the spot). -/
def ClientOk (users : List UserRec) (c : ClientInfo) : Prop :=
  (c.role = "Admin" → c.is_authenticated = true) ∧
  (c.is_authenticated = true →
    ∀ u ∈ users, u.username = c.username → u.is_banned = false)

/-- The server-state invariant: account usernames are unique (the
`UNIQUE` column constraint) and every session satisfies `ClientOk`. -/
def ServerInv (s : ServerState) : Prop :=
  (s.users.map (fun u => u.username)).Nodup ∧
  ∀ p ∈ s.clients, ClientOk s.users p.2

theorem clientOk_of_eqFields {users : List UserRec} {c c' : ClientInfo}
    (h : ClientOk users c) (hrole : c'.role = c.role)
    (hauth : c'.is_authenticated = c.is_authenticated)
    (hname : c'.username = c.username) : ClientOk users c' := by
  constructor
  · intro hr
    rw [hrole] at hr
    rw [hauth]
    exact h.1 hr
  · intro ha u hu hn
    rw [hauth] at ha
    rw [hname] at hn
    exact h.2 ha u hu hn

theorem clientOk_users_append_unbanned {users : List UserRec} {c : ClientInfo}
    (h : ClientOk users c) (u0 : UserRec) (hb : u0.is_banned = false) :
    ClientOk (users ++ [u0]) c := by
  refine ⟨h.1, ?_⟩
  intro ha u hu hn
  rcases List.mem_append.mp hu with h1 | h1
  · exact h.2 ha u h1 hn
  · rw [List.mem_singleton.mp h1]
    exact hb

theorem clientOk_users_map {users : List UserRec} {c : ClientInfo}
    (h : ClientOk users c) (g : UserRec → UserRec)
    (hg : ∀ u, (g u).username = u.username ∧ (g u).is_banned = u.is_banned) :
    ClientOk (users.map g) c := by
  refine ⟨h.1, ?_⟩
  intro ha u' hu' hn'
  rcases List.mem_map.mp hu' with ⟨u, hu, rfl⟩
  rw [(hg u).2]
  refine h.2 ha u hu ?_
  rw [← (hg u).1]
  exact hn'

theorem clientOk_ban {users : List UserRec} {c : ClientInfo} (target : String)
    (h : ClientOk users c) (hne : c.username ≠ target) :
    ClientOk (users.map (fun u =>
      if u.username == target then { u with is_banned := true } else u)) c := by
  refine ⟨h.1, ?_⟩
  intro ha u' hu' hn'
  rcases List.mem_map.mp hu' with ⟨u, hu, rfl⟩
  by_cases hc : u.username == target
  · rw [if_pos hc] at hn' ⊢
    exfalso
    apply hne
    rw [← hn']
    exact eq_of_beq hc
  · rw [if_neg hc] at hn' ⊢
    exact h.2 ha u hu hn'

theorem map_username_map (users : List UserRec) (h : UserRec → UserRec)
    (hh : ∀ u, (h u).username = u.username) :
    (users.map h).map (fun u => u.username) = users.map (fun u => u.username) := by
  rw [List.map_map]
  exact List.map_congr_left (fun u _ => hh u)

theorem handlePacket_inv (s : ServerState) (addr : Addr) (now : Nat)
    (pkt : NetworkPacket) (hinv : ServerInv s) :
    ServerInv (handlePacket s addr now pkt).1 := by
  obtain ⟨hnodup, hcl⟩ := hinv
  cases pkt with
  | Handshake username =>
    refine ⟨hnodup, ?_⟩
    intro q hq
    simp only [handlePacket] at hq
    rcases mem_aset _ _ _ _ hq with h | h
    · exact hcl q h
    · rw [h]
      exact ⟨fun hr => by simp at hr, fun ha => by simp at ha⟩
  | Register username password =>
    simp only [handlePacket]
    split
    · exact ⟨hnodup, hcl⟩
    · rename_i hdup
      refine ⟨?_, ?_⟩
      · rw [List.map_append]
        refine List.Nodup.append hnodup (List.nodup_singleton _) ?_
        intro a ha hb
        simp only [List.map_cons, List.map_nil, List.mem_singleton] at hb
        subst hb
        rcases List.mem_map.mp ha with ⟨u, hu, he⟩
        apply hdup
        rw [List.any_eq_true]
        exact ⟨u, hu, by simp [he]⟩
      · intro q hq
        exact clientOk_users_append_unbanned (hcl q hq) _ rfl
  | Login username password =>
    cases hfind : s.users.find? (fun u => u.username == username) with
    | none =>
      simp only [handlePacket, hfind]
      exact ⟨hnodup, hcl⟩
    | some u =>
      simp only [handlePacket, hfind]
      split
      · exact ⟨hnodup, hcl⟩
      · rename_i hnban
        split
        · refine ⟨hnodup, ?_⟩
          intro q hq
          have hq2 : q ∈ aupdate s.clients addr (fun i =>
              { i with username := username, is_authenticated := true,
                       role := u.role, status := u.status,
                       nick_color := u.nick_color, last_seen := now }) := hq
          rcases mem_aupdate _ _ _ _ hq2 with ⟨p, hp, hpe | hpe⟩
          · rw [hpe]
            exact hcl p hp
          · rw [hpe]
            constructor
            · intro _
              rfl
            · intro _ u' hu' hn'
              have humem : u ∈ s.users := List.mem_of_find?_eq_some hfind
              have hueq : u.username = username := by
                have := List.find?_some hfind
                simpa using this
              have heq : u' = u := by
                apply List.inj_on_of_nodup_map hnodup hu' humem
                rw [hueq]
                exact hn'
              rw [heq]
              simpa using hnban
        · exact ⟨hnodup, hcl⟩
  | UpdateProfile status nick_color =>
    cases hla : alookup s.clients addr with
    | none =>
      simp only [handlePacket, hla]
      exact ⟨hnodup, hcl⟩
    | some info =>
      simp only [handlePacket, hla]
      split
      · refine ⟨?_, ?_⟩
        · rw [map_username_map _ _ (fun u => by
            by_cases hc : u.username == info.username <;> simp [hc])]
          exact hnodup
        · intro q hq
          have hgpres : ∀ u : UserRec,
              ((if u.username == info.username then
                { u with status := status, nick_color := nick_color }
              else u) : UserRec).username = u.username ∧
              ((if u.username == info.username then
                { u with status := status, nick_color := nick_color }
              else u) : UserRec).is_banned = u.is_banned := by
            intro u
            by_cases hc : u.username == info.username <;> simp [hc]
          have hq2 : q ∈ aupdate s.clients addr (fun i =>
              { i with status := status, nick_color := nick_color }) := hq
          rcases mem_aupdate _ _ _ _ hq2 with ⟨p, hp, hpe | hpe⟩
          · rw [hpe]
            exact clientOk_users_map (hcl p hp) _ hgpres
          · rw [hpe]
            exact clientOk_users_map
              (clientOk_of_eqFields (hcl p hp) rfl rfl rfl) _ hgpres
      · exact ⟨hnodup, hcl⟩
  | Audio username data =>
    simp only [handlePacket, relayGated]
    split <;>
    · refine ⟨hnodup, ?_⟩
      intro q hq
      have hq2 : q ∈ aupdate s.clients addr (fun i => { i with last_seen := now }) := hq
      rcases mem_aupdate _ _ _ _ hq2 with ⟨p, hp, hpe | hpe⟩
      · rw [hpe]
        exact hcl p hp
      · rw [hpe]
        exact clientOk_of_eqFields (hcl p hp) rfl rfl rfl
  | TypingStatus username is_typing =>
    simp only [handlePacket, relayGated]
    split <;>
    · refine ⟨hnodup, ?_⟩
      intro q hq
      have hq2 : q ∈ aupdate s.clients addr (fun i => { i with last_seen := now }) := hq
      rcases mem_aupdate _ _ _ _ hq2 with ⟨p, hp, hpe | hpe⟩
      · rw [hpe]
        exact hcl p hp
      · rw [hpe]
        exact clientOk_of_eqFields (hcl p hp) rfl rfl rfl
  | ChatMessage id username message timestamp =>
    simp only [handlePacket]
    split <;>
    · refine ⟨hnodup, ?_⟩
      intro q hq
      have hq2 : q ∈ aupdate s.clients addr (fun i => { i with last_seen := now }) := hq
      rcases mem_aupdate _ _ _ _ hq2 with ⟨p, hp, hpe | hpe⟩
      · rw [hpe]
        exact hcl p hp
      · rw [hpe]
        exact clientOk_of_eqFields (hcl p hp) rfl rfl rfl
  | AdminAction target action =>
    simp only [handlePacket]
    split
    · cases action with
      | Kick =>
        refine ⟨hnodup, ?_⟩
        intro q hq
        have hq2 : q ∈ List.filter
            (fun p => !(p.2.username == target)) s.clients := hq
        exact hcl q (List.mem_of_mem_filter hq2)
      | Ban =>
        refine ⟨?_, ?_⟩
        · rw [map_username_map _ _ (fun u => by
            by_cases hc : u.username == target <;> simp [hc])]
          exact hnodup
        · intro q hq
          have hq2 : q ∈ List.filter
              (fun p => !(p.2.username == target)) s.clients := hq
          have hqm := List.mem_of_mem_filter hq2
          have hpred := List.of_mem_filter hq2
          have hne : q.2.username ≠ target := by
            simpa using hpred
          exact clientOk_ban target (hcl q hqm) hne
      | Mute =>
        refine ⟨hnodup, ?_⟩
        intro q hq
        have hq2 : q ∈ List.map (fun p =>
            if p.2.username == target then
              (p.1, { p.2 with is_muted := true }) else p) s.clients := hq
        rcases List.mem_map.mp hq2 with ⟨p, hp, hpe⟩
        by_cases hc : p.2.username == target
        · rw [if_pos hc] at hpe
          rw [← hpe]
          exact clientOk_of_eqFields (hcl p hp) rfl rfl rfl
        · rw [if_neg hc] at hpe
          rw [← hpe]
          exact hcl p hp
      | Unmute =>
        refine ⟨hnodup, ?_⟩
        intro q hq
        have hq2 : q ∈ List.map (fun p =>
            if p.2.username == target then
              (p.1, { p.2 with is_muted := false }) else p) s.clients := hq
        rcases List.mem_map.mp hq2 with ⟨p, hp, hpe⟩
        by_cases hc : p.2.username == target
        · rw [if_pos hc] at hpe
          rw [← hpe]
          exact clientOk_of_eqFields (hcl p hp) rfl rfl rfl
        · rw [if_neg hc] at hpe
          rw [← hpe]
          exact hcl p hp
    · exact ⟨hnodup, hcl⟩
  | RequestChatHistory channel =>
    cases hla : alookup s.clients addr with
    | none =>
      simp only [handlePacket, hla]
      exact ⟨hnodup, hcl⟩
    | some info =>
      simp only [handlePacket, hla]
      split <;> exact ⟨hnodup, hcl⟩
  | CreateChannel name =>
    cases hla : alookup s.clients addr with
    | none =>
      simp only [handlePacket, hla]
      exact ⟨hnodup, hcl⟩
    | some info =>
      simp only [handlePacket, hla]
      split <;> exact ⟨hnodup, hcl⟩
  | JoinChannel name =>
    cases hla : alookup s.clients addr with
    | none =>
      simp only [handlePacket, hla]
      exact ⟨hnodup, hcl⟩
    | some info =>
      simp only [handlePacket, hla]
      split
      · refine ⟨hnodup, ?_⟩
        intro q hq
        have hq2 : q ∈ aupdate s.clients addr (fun i =>
            { i with current_channel := name, last_seen := now }) := hq
        rcases mem_aupdate _ _ _ _ hq2 with ⟨p, hp, hpe | hpe⟩
        · rw [hpe]
          exact hcl p hp
        · rw [hpe]
          exact clientOk_of_eqFields (hcl p hp) rfl rfl rfl
      · exact ⟨hnodup, hcl⟩
  | PrivateMessage id sender toUser message timestamp =>
    cases hla : alookup s.clients addr with
    | none =>
      simp only [handlePacket, hla]
      exact ⟨hnodup, hcl⟩
    | some info =>
      simp only [handlePacket, hla]
      split <;> exact ⟨hnodup, hcl⟩
  | RequestDirectHistory target =>
    cases hla : alookup s.clients addr with
    | none =>
      simp only [handlePacket, hla]
      exact ⟨hnodup, hcl⟩
    | some info =>
      simp only [handlePacket, hla]
      split <;> exact ⟨hnodup, hcl⟩
  | FileStart id sender toUser filename total_chunks is_image timestamp =>
    simp only [handlePacket]
    split <;> exact ⟨hnodup, hcl⟩
  | FileChunk id chunk_index data =>
    simp only [handlePacket]
    split
    · cases hra : alookup s.reassemblers id with
      | none =>
        simp only [hra]
        exact ⟨hnodup, hcl⟩
      | some pending =>
        cases hpc : processChunk pending chunk_index data with
        | mk p' res =>
          cases res with
          | none =>
            simp only [hra, hpc]
            exact ⟨hnodup, hcl⟩
          | some fd =>
            simp only [hra, hpc]
            exact ⟨hnodup, hcl⟩
    · exact ⟨hnodup, hcl⟩
  | Reaction msg_id sender emoji =>
    cases hla : alookup s.clients addr with
    | none =>
      simp only [handlePacket, hla]
      exact ⟨hnodup, hcl⟩
    | some info =>
      simp only [handlePacket, hla]
      split <;> exact ⟨hnodup, hcl⟩
  | RequestProfile username =>
    exact ⟨hnodup, hcl⟩
  | ProfileUpdate username avatar_url bio =>
    cases hla : alookup s.clients addr with
    | none =>
      simp only [handlePacket, hla]
      exact ⟨hnodup, hcl⟩
    | some info =>
      simp only [handlePacket, hla]
      split
      · refine ⟨?_, ?_⟩
        · rw [map_username_map _ _ (fun u => by
            by_cases hc : u.username == info.username <;> simp [hc])]
          exact hnodup
        · intro q hq
          refine clientOk_users_map (hcl q hq) _ ?_
          intro u
          by_cases hc : u.username == info.username <;> simp [hc]
      · exact ⟨hnodup, hcl⟩
  | Ping =>
    refine ⟨hnodup, ?_⟩
    intro q hq
    simp only [handlePacket] at hq
    have hq2 : q ∈ aupdate s.clients addr (fun i => { i with last_seen := now }) := hq
    rcases mem_aupdate _ _ _ _ hq2 with ⟨p, hp, hpe | hpe⟩
    · rw [hpe]
      exact hcl p hp
    · rw [hpe]
      exact clientOk_of_eqFields (hcl p hp) rfl rfl rfl
  | AuthResponse success message role status nick_color => exact ⟨hnodup, hcl⟩
  | UsersUpdate state => exact ⟨hnodup, hcl⟩
  | ChatHistory history => exact ⟨hnodup, hcl⟩
  | DirectHistory history => exact ⟨hnodup, hcl⟩
  | FileMessage id sender toUser filename data is_image timestamp =>
    exact ⟨hnodup, hcl⟩

theorem stepServer_inv (s : ServerState) (addr : Addr) (now : Nat)
    (pkt : NetworkPacket) (h : ServerInv s) :
    ServerInv (stepServer s addr now pkt).1 := by
  rw [stepServer_fst]
  have h1 := handlePacket_inv s addr now pkt h
  exact ⟨h1.1, fun p hp => h1.2 p (List.mem_of_mem_filter hp)⟩

theorem serverInv_init : ServerInv initState := by
  refine ⟨by simp [initState], ?_⟩
  intro p hp
  simp [initState] at hp

theorem reachable_inv (s : ServerState) (hs : Reachable s) : ServerInv s := by
  obtain ⟨events, rfl⟩ := hs
  have key : ∀ (evts : List (Addr × Nat × NetworkPacket)) (s0 : ServerState),
      ServerInv s0 → ServerInv (execServer s0 evts) := by
    intro evts
    induction evts with
    | nil => intro s0 h; exact h
    | cons e rest ih =>
      intro s0 h
      obtain ⟨a, n, p⟩ := e
      exact ih _ (stepServer_inv _ a n p h)
  exact key events initState serverInv_init

/-! ## C10 -/

/-- C10: in every state reachable from the empty registry, a session
whose role field is `"Admin"` is authenticated; consequently, whenever
the `AdminAction` handler's `is_admin` test (which reads only the role)
passes for an address, the session at that address is authenticated —
the handler never acts for an unauthenticated session. -/
theorem admin_sessions_authenticated (s : ServerState) (hs : Reachable s) :
    (∀ p ∈ s.clients, p.2.role = "Admin" → p.2.is_authenticated = true) ∧
    (∀ a : Addr, isAdminCheck s.clients a = true →
      ∃ info, alookup s.clients a = some info ∧ info.is_authenticated = true) := by
  have hinv := reachable_inv s hs
  constructor
  · intro p hp hrole
    exact (hinv.2 p hp).1 hrole
  · intro a hcheck
    unfold isAdminCheck at hcheck
    cases hla : alookup s.clients a with
    | none =>
      rw [hla] at hcheck
      exact absurd hcheck (by simp)
    | some info =>
      rw [hla] at hcheck
      have hrole : info.role = "Admin" := by simpa using hcheck
      exact ⟨info, rfl, (hinv.2 (a, info) (alookup_mem _ _ _ hla)).1 hrole⟩

/-- A demonstration run: handshake, first registration, login. -/
def demoEvents : List (Addr × Nat × NetworkPacket) :=
  [(0, 0, .Handshake "alice"), (0, 0, .Register "alice" "pw"),
    (0, 0, .Login "alice" "pw")]

/-- Closed witness for `admin_sessions_authenticated` on a concrete
reachable state holding an authenticated Admin session. -/
theorem admin_sessions_authenticated_witness :
    (∀ p ∈ (execServer initState demoEvents).clients,
      p.2.role = "Admin" → p.2.is_authenticated = true) ∧
    (∀ a : Addr, isAdminCheck (execServer initState demoEvents).clients a = true →
      ∃ info, alookup (execServer initState demoEvents).clients a = some info ∧
        info.is_authenticated = true) :=
  admin_sessions_authenticated _ ⟨demoEvents, rfl⟩

/-! ## C4 -/

/-- C4: in every reachable state, each membership-broadcast entry for a
durable channel lists exactly the projections of the authenticated
sessions whose `current_channel` matches; every listed member comes
from an authenticated session, and no listed member's account is
banned.  (The snapshot sent after each step is `broadcastState` of the
post-step state, which is itself reachable, so this covers every
broadcast the server emits.) -/
theorem broadcast_members_exact (s : ServerState) (hs : Reachable s)
    (chan : String) (entry : List UserInfo)
    (hentry : (chan, entry) ∈ broadcastState s) :
    entry = (s.clients.filter (fun p =>
        p.2.current_channel == chan && p.2.is_authenticated)).map
      (fun p => projectUser p.2) ∧
    ∀ ui ∈ entry, ∃ p, p ∈ s.clients ∧ p.2.is_authenticated = true ∧
      p.2.current_channel = chan ∧ projectUser p.2 = ui ∧
      ∀ u ∈ s.users, u.username = p.2.username → u.is_banned = false := by
  have hinv := reachable_inv s hs
  rcases List.mem_map.mp hentry with ⟨c, hc, he⟩
  have hc1 : c = chan := congrArg Prod.fst he
  subst hc1
  have he2 : (s.clients.filter (fun p =>
      p.2.current_channel == c && p.2.is_authenticated)).map
      (fun p => projectUser p.2) = entry := congrArg Prod.snd he
  refine ⟨he2.symm, ?_⟩
  intro ui hui
  rw [← he2] at hui
  rcases List.mem_map.mp hui with ⟨p, hpf, hproj⟩
  have hmem := List.mem_of_mem_filter hpf
  have hpred := List.of_mem_filter hpf
  rw [Bool.and_eq_true] at hpred
  have hauth : p.2.is_authenticated = true := hpred.2
  have hchan : p.2.current_channel = c := by
    have := hpred.1
    simpa using this
  exact ⟨p, hmem, hauth, hchan, hproj,
    fun u hu hn => (hinv.2 p hmem).2 hauth u hu hn⟩

/-- Closed witness for `broadcast_members_exact` on the demonstration
run: the Lobby entry holds exactly the authenticated admin `alice`. -/
theorem broadcast_members_exact_witness :
    (("Lobby", [(⟨"alice", "Admin", false, "", "#FFFFFF"⟩ : UserInfo)]) ∈
      broadcastState (execServer initState demoEvents)) ∧
    ([(⟨"alice", "Admin", false, "", "#FFFFFF"⟩ : UserInfo)] =
      ((execServer initState demoEvents).clients.filter (fun p =>
        p.2.current_channel == "Lobby" && p.2.is_authenticated)).map
        (fun p => projectUser p.2) ∧
    ∀ ui ∈ [(⟨"alice", "Admin", false, "", "#FFFFFF"⟩ : UserInfo)],
      ∃ p, p ∈ (execServer initState demoEvents).clients ∧
        p.2.is_authenticated = true ∧ p.2.current_channel = "Lobby" ∧
        projectUser p.2 = ui ∧
        ∀ u ∈ (execServer initState demoEvents).users,
          u.username = p.2.username → u.is_banned = false) :=
  ⟨by decide,
    broadcast_members_exact _ ⟨demoEvents, rfl⟩ "Lobby" _ (by decide)⟩

end SpeakV
